import Mathlib

/-!
Formal model of the Debt Payoff Planning Engine of the Fintech repository.

The repository under review ships only the React-Native client; the payoff
engine itself (amortization simulator, ordering policy, payoff planner,
comparison reporter) lives behind the `/debts/analysis` endpoint and is not
part of the reviewed sources.  Those components are therefore modelled from
the specification text, as marked on each definition.  The client-side
functions `analyzeDebts` (services/api.ts) and the debts-screen progress
computation, as well as the currency-format configuration (utils/format.ts),
are translated from the repository sources.

Currency amounts are minor-unit integers (the deployed currency is
zero-decimal INR, so one unit is one whole rupee); interest rates are whole
annual percentages.
-/

/-- Modelled from the spec (§4.1, missing from the reviewed sources):
`monthlyInterest(balance, annualRate) = balance × annualRate / 100 / 12`,
rounded half-up to the currency minor unit (zero-decimal, so to a whole
unit).  For nonnegative inputs, half-up rounding of `x` is `⌊x + 1/2⌋`,
and `⌊b·r/1200 + 1/2⌋ = (2·b·r + 1200) / 2400` in integer division. -/
def monthlyInterest (balance annualRate : Int) : Int :=
  Int.ofNat ((2 * balance * annualRate + 1200).toNat / 2400)

/-- From utils/format.ts: `formatCurrency` renders amounts with
`maximumFractionDigits: 0` (zero-decimal INR), so the currency minor unit
is the whole unit. -/
def formatCurrencyMaxFractionDigits : Nat := 0

/-- Scale factor of the currency minor unit implied by format.ts. -/
def minorUnitScale : Nat := 10 ^ formatCurrencyMaxFractionDigits

/-- Modelled from the spec (§3, missing from the reviewed sources): the
static debt snapshot handed to the engine.  Fields that the simulation
ignores (`name`, `kind`, `remaining_term_months`) are omitted. -/
structure Debt where
  id : Nat
  principal : Int
  outstanding : Int
  annual_interest_rate : Int
  minimum_payment : Int
  deriving DecidableEq, Repr

/-- Modelled from the spec (§3): the engine-internal working copy of one
still-unpaid debt, carrying its mutable balance. -/
structure SimDebt where
  id : Nat
  annual_interest_rate : Int
  minimum_payment : Int
  balance : Int
  deriving DecidableEq, Repr

/-- Modelled from the spec (§9): the closed enumeration of strategies. -/
inductive Strategy where
  | snowball
  | avalanche
  deriving DecidableEq, Repr

/-- Modelled from the spec (§4.2): snowball priority — ascending by current
outstanding balance, ties broken by ascending debt id. -/
def snowballRel (a b : SimDebt) : Prop :=
  a.balance < b.balance ∨ (a.balance = b.balance ∧ a.id ≤ b.id)

instance (a b : SimDebt) : Decidable (snowballRel a b) := by
  unfold snowballRel; infer_instance

/-- Modelled from the spec (§4.2): avalanche priority — descending by
`annual_interest_rate`, ties broken by descending outstanding balance,
then ascending debt id. -/
def avalancheRel (a b : SimDebt) : Prop :=
  b.annual_interest_rate < a.annual_interest_rate ∨
    (a.annual_interest_rate = b.annual_interest_rate ∧
      (b.balance < a.balance ∨ (a.balance = b.balance ∧ a.id ≤ b.id)))

instance (a b : SimDebt) : Decidable (avalancheRel a b) := by
  unfold avalancheRel; infer_instance

/-- The priority relation selected by a strategy. -/
def strategyRel : Strategy → SimDebt → SimDebt → Prop
  | .snowball => snowballRel
  | .avalanche => avalancheRel

instance (s : Strategy) (a b : SimDebt) : Decidable (strategyRel s a b) := by
  cases s <;> (unfold strategyRel; infer_instance)

/-- Insert an element into a list sorted by `R`, keeping it sorted. -/
def insertSorted (R : SimDebt → SimDebt → Prop) [DecidableRel R]
    (x : SimDebt) : List SimDebt → List SimDebt
  | [] => [x]
  | y :: l => if R x y then x :: y :: l else y :: insertSorted R x l

/-- Insertion sort by the relation `R`. -/
def sortByRel (R : SimDebt → SimDebt → Prop) [DecidableRel R] :
    List SimDebt → List SimDebt
  | [] => []
  | x :: l => insertSorted R x (sortByRel R l)

/-- Modelled from the spec (§4.2): the Ordering Policy — a stateless ranking
function over the current working copies, called once per simulated month. -/
def orderPolicy (s : Strategy) (ds : List SimDebt) : List SimDebt :=
  sortByRel (strategyRel s) ds

/-- Modelled from the spec (§4.3 step 1): accrue one month of interest onto
a debt's balance (interest capitalization before payment application). -/
def accrueDebt (d : SimDebt) : SimDebt :=
  { d with balance := d.balance + monthlyInterest d.balance d.annual_interest_rate }

/-- Modelled from the spec (§4.3 step 1). -/
def accruePhase (ds : List SimDebt) : List SimDebt :=
  ds.map accrueDebt

/-- Modelled from the spec (§4.3 step 6): the interest accrued this month. -/
def interestTotal (ds : List SimDebt) : Int :=
  (ds.map fun d => monthlyInterest d.balance d.annual_interest_rate).sum

/-- Modelled from the spec (§4.3 step 2): apply the debt's own minimum
payment to its own balance, flooring the balance at 0. -/
def payMinimum (d : SimDebt) : SimDebt :=
  { d with balance := max 0 (d.balance - d.minimum_payment) }

/-- Modelled from the spec (§4.3 step 2). -/
def minPhase (ds : List SimDebt) : List SimDebt :=
  ds.map payMinimum

/-- Modelled from the spec (§4.3 step 2): the part of the minimum payment
exceeding the remaining balance, returned as unallocated surplus. -/
def overpaySurplus (d : SimDebt) : Int :=
  max 0 (d.minimum_payment - d.balance)

/-- Modelled from the spec (§4.3 step 3): total surplus = the month's extra
payment plus every per-debt overpayment surplus, computed on the
post-accrual balances. -/
def surplusTotal (extra : Int) (accrued : List SimDebt) : Int :=
  extra + (accrued.map overpaySurplus).sum

/-- Modelled from the spec (§4.3 step 4): cascading allocation — walk the
priority order, pay each debt in full before moving to the next, until the
surplus is exhausted. -/
def cascade (surplus : Int) : List SimDebt → List SimDebt
  | [] => []
  | d :: rest =>
    let pay := min surplus d.balance
    { d with balance := d.balance - pay } :: cascade (surplus - pay) rest

/-- Modelled from the spec (§3): the ephemeral per-strategy simulation
state.  `paid` maps a debt id to the month number at which it was driven
to zero (set once, immutable thereafter). -/
structure SimState where
  month : Nat
  debts : List SimDebt
  paid : List (Nat × Nat)
  cumInterest : Int
  deriving DecidableEq, Repr

/-- Modelled from the spec (§4.3): advance all not-yet-paid debts by exactly
one month: accrue interest, apply minimum payments, allocate the surplus
along the ordering policy's current order, mark debts driven to 0 or below
as Paid at this month and exclude them, and accumulate interest. -/
def stepMonth (s : Strategy) (extra : Int) (st : SimState) : SimState :=
  let accrued := accruePhase st.debts
  let reduced := minPhase accrued
  let ordered := orderPolicy s reduced
  let alloc := cascade (surplusTotal extra accrued) ordered
  { month := st.month + 1
    debts := alloc.filter fun d => 0 < d.balance
    paid := st.paid ++ (alloc.filter fun d => d.balance ≤ 0).map fun d => (d.id, st.month + 1)
    cumInterest := st.cumInterest + interestTotal st.debts }

/-- Modelled from the spec (§4.3 termination): run the monthly loop until
all debts are Paid or the fuel (safety ceiling) is exhausted. -/
def simulate (s : Strategy) (extra : Int) : Nat → SimState → SimState
  | 0, st => st
  | fuel + 1, st =>
    if st.debts.isEmpty then st else simulate s extra fuel (stepMonth s extra st)

/-- Modelled from the spec (§4.3): the safety ceiling of 1200 months. -/
def safetyCeiling : Nat := 1200

/-- Modelled from the spec (§3): the output of one strategy run.
`total_months = none` is the explicit NonConvergent marker; the cumulative
interest computed up to the ceiling is still reported. -/
structure PlanResult where
  total_months : Option Nat
  total_interest_paid : Int
  per_debt_payoff_month : List (Nat × Nat)
  deriving DecidableEq, Repr

/-- Working copy of a debt at the start of a run. -/
def toSimDebt (d : Debt) : SimDebt :=
  ⟨d.id, d.annual_interest_rate, d.minimum_payment, d.outstanding⟩

/-- Modelled from the spec (§4.3, §4.4): run one strategy to completion on
a private copy of the input balances.  Debts whose snapshot balance is
already 0 are Paid from the start. -/
def runStrategy (s : Strategy) (extra : Int) (debts : List Debt) : PlanResult :=
  let active := ((debts.filter fun d => 0 < d.outstanding).map toSimDebt)
  let pre := (debts.filter fun d => d.outstanding ≤ 0).map fun d => (d.id, 0)
  let fin := simulate s extra safetyCeiling
    { month := 0, debts := active, paid := pre, cumInterest := 0 }
  { total_months := if fin.debts.isEmpty then some fin.month else none
    total_interest_paid := fin.cumInterest
    per_debt_payoff_month := fin.paid }

/-- Modelled from the spec (§3): the final comparative output. -/
structure AnalysisResult where
  total_debt : Int
  total_emi : Int
  average_interest_rate : ℚ
  snowball_analysis : PlanResult
  avalanche_analysis : PlanResult
  interest_saved_with_avalanche : Int
  deriving DecidableEq, Repr

/-- Modelled from the spec (§4.5): the Comparison Reporter. -/
def analyze (debts : List Debt) (extra : Int) : AnalysisResult :=
  let td := (debts.map fun d => d.outstanding).sum
  let snow := runStrategy .snowball extra debts
  let ava := runStrategy .avalanche extra debts
  { total_debt := td
    total_emi := (debts.map fun d => d.minimum_payment).sum
    average_interest_rate :=
      if td = 0 then 0
      else (((debts.map fun d => d.outstanding * d.annual_interest_rate).sum : ℤ) : ℚ) / (td : ℚ)
    snowball_analysis := snow
    avalanche_analysis := ava
    interest_saved_with_avalanche := snow.total_interest_paid - ava.total_interest_paid }

/-- Modelled from the spec (§7): the typed failure class of `planPayoff`. -/
inductive PlanError where
  | invalidInput
  deriving DecidableEq, Repr

/-- Modelled from the spec (§7): input validation — nonnegative extra
payment, nonnegative outstanding, positive minimum payment on every unpaid
debt, nonnegative interest rate. -/
def validInput (debts : List Debt) (extra : Int) : Prop :=
  0 ≤ extra ∧ ∀ d ∈ debts,
    0 ≤ d.outstanding ∧ (0 < d.outstanding → 0 < d.minimum_payment) ∧
      0 ≤ d.annual_interest_rate

instance (debts : List Debt) (extra : Int) : Decidable (validInput debts extra) := by
  unfold validInput; infer_instance

/-- Modelled from the spec (§6, §7): the engine entry point; invalid input
is reported before any simulation starts, with no partial result. -/
def planPayoff (debts : List Debt) (extra : Int) : Except PlanError AnalysisResult :=
  if validInput debts extra then .ok (analyze debts extra) else .error .invalidInput

/-- The priority order (as debt ids) that `stepMonth` uses for the coming
month's surplus allocation, as a function of the current state. -/
def monthOrderIds (s : Strategy) (st : SimState) : List Nat :=
  (orderPolicy s (minPhase (accruePhase st.debts))).map fun d => d.id

/-- A captured HTTP request of the client, reduced to the fields the claims
are about. -/
structure ApiRequest where
  path : String
  params : List (String × Int)
  deriving DecidableEq, Repr

/-- From services/api.ts: `analyzeDebts(userId, extraPayment = 0)` issues
`GET /debts/analysis/:userId` with `extra_payment` as query parameter;
the extra payment defaults to 0 when the caller omits it. -/
def analyzeDebts (userId : String) (extraPayment : Int := 0) : ApiRequest :=
  { path := "/debts/analysis/" ++ userId
    params := [("extra_payment", extraPayment)] }

/-- Sum of the balances of the first `i` debts of a working list; the
amount of surplus consumed before the cascade reaches position `i`. -/
def prefixBal (ds : List SimDebt) (i : Nat) : Int :=
  ((ds.take i).map fun d => d.balance).sum

/-- Balance of a single debt after one simulated month: accrue, pay the
minimum, then absorb the whole surplus (its own overpayment plus the
extra payment), floored at 0. -/
def nbal (x : SimDebt) (e : Int) : Int :=
  max 0 (x.balance + monthlyInterest x.balance x.annual_interest_rate
    - x.minimum_payment - e)

/-- The month count of a single-debt run, written as a direct recursion on
the remaining fuel; used to reason about `runStrategy` on one debt. -/
def oneRun (e rate minp : Int) : Nat → Int → Option Nat
  | 0, b => if b ≤ 0 then some 0 else none
  | fuel + 1, b =>
    if b ≤ 0 then some 0
    else (oneRun e rate minp fuel
      (max 0 (b + monthlyInterest b rate - minp - e))).map (· + 1)

/-- Example state: two interest-free debts whose balances decay at
different speeds, so the snowball order flips during the run. -/
def exFlipState : SimState := ⟨0, [⟨1, 0, 5, 100⟩, ⟨2, 0, 40, 200⟩], [], 0⟩

/-- Example debt: outstanding 1200 at 0 percent with minimum payment 100,
paid off in exactly 12 months. -/
def exTwelve : Debt := ⟨1, 1200, 1200, 0, 100⟩

/-- Example debt from the spec's non-convergence scenario: outstanding
10000 at 36 percent per year with minimum payment 1. -/
def exDiverge : Debt := ⟨1, 10000, 10000, 36, 1⟩

/-- Example pair of debts on which a larger extra payment lengthens the
payoff: paying debt 2 off one month earlier removes its minimum payment
from the later monthly budgets. -/
def exPair : List Debt := [⟨1, 163, 163, 36, 42⟩, ⟨2, 148, 148, 0, 51⟩]

/-- From the debts screen: the progress computation
`((debt.principal - debt.outstanding) / debt.principal) * 100`, which has
no guard on the divisor.  A zero divisor yields no finite number in the
client's arithmetic; this is modelled as `none`. -/
def progressPct (principal outstanding : ℚ) : Option ℚ :=
  if principal = 0 then none
  else some ((principal - outstanding) / principal * 100)

/-- Inserting into a sorted list yields a permutation of pushing in front. -/
theorem insertSorted_perm (R : SimDebt → SimDebt → Prop) [DecidableRel R]
    (x : SimDebt) (l : List SimDebt) :
    List.Perm (insertSorted R x l) (x :: l) := by
  induction l with
  | nil => exact List.Perm.refl _
  | cons y l ih =>
    by_cases h : R x y
    · simp [insertSorted, h]
    · simp only [insertSorted, if_neg h]
      exact List.Perm.trans (List.Perm.cons y ih) (List.Perm.swap x y l)

/-- Insertion sort permutes its input. -/
theorem sortByRel_perm (R : SimDebt → SimDebt → Prop) [DecidableRel R]
    (l : List SimDebt) : List.Perm (sortByRel R l) l := by
  induction l with
  | nil => exact List.Perm.refl _
  | cons x l ih =>
    exact List.Perm.trans (insertSorted_perm R x (sortByRel R l)) (List.Perm.cons x ih)

/-- Inserting into a sorted list keeps it sorted, for a total transitive
relation. -/
theorem insertSorted_pairwise (R : SimDebt → SimDebt → Prop) [DecidableRel R]
    (htot : ∀ a b, R a b ∨ R b a) (htr : ∀ a b c, R a b → R b c → R a c)
    (x : SimDebt) (l : List SimDebt) (hl : l.Pairwise R) :
    (insertSorted R x l).Pairwise R := by
  induction l with
  | nil => simp [insertSorted]
  | cons y l ih =>
    rw [List.pairwise_cons] at hl
    obtain ⟨hy, hl⟩ := hl
    by_cases h : R x y
    · rw [insertSorted, if_pos h, List.pairwise_cons]
      refine ⟨?_, List.pairwise_cons.2 ⟨hy, hl⟩⟩
      intro z hz
      rcases List.mem_cons.1 hz with rfl | hz2
      · exact h
      · exact htr x y z h (hy z hz2)
    · rw [insertSorted, if_neg h, List.pairwise_cons]
      refine ⟨?_, ih hl⟩
      intro z hz
      have hmem := (insertSorted_perm R x l).mem_iff.1 hz
      rcases List.mem_cons.1 hmem with hz2 | hz2
      · rw [hz2]
        rcases htot x y with hxy | hyx
        · exact absurd hxy h
        · exact hyx
      · exact hy z hz2

/-- Insertion sort sorts, for a total transitive relation. -/
theorem sortByRel_pairwise (R : SimDebt → SimDebt → Prop) [DecidableRel R]
    (htot : ∀ a b, R a b ∨ R b a) (htr : ∀ a b c, R a b → R b c → R a c)
    (l : List SimDebt) : (sortByRel R l).Pairwise R := by
  induction l with
  | nil => simp [sortByRel]
  | cons x l ih => exact insertSorted_pairwise R htot htr x (sortByRel R l) ih

/-- The snowball relation is total. -/
theorem snowballRel_total (a b : SimDebt) : snowballRel a b ∨ snowballRel b a := by
  unfold snowballRel; omega

/-- The snowball relation is transitive. -/
theorem snowballRel_trans (a b c : SimDebt) :
    snowballRel a b → snowballRel b c → snowballRel a c := by
  unfold snowballRel; omega

/-- The avalanche relation is total. -/
theorem avalancheRel_total (a b : SimDebt) : avalancheRel a b ∨ avalancheRel b a := by
  unfold avalancheRel; omega

/-- The avalanche relation is transitive. -/
theorem avalancheRel_trans (a b c : SimDebt) :
    avalancheRel a b → avalancheRel b c → avalancheRel a c := by
  unfold avalancheRel; omega

/-- C2: the Ordering Policy returns a total order of the current working
copies: for snowball, ascending by current balance with ties by ascending
id; for avalanche, descending by rate with ties by descending balance then
ascending id (each output is a sorted permutation of its input, and
sortedness in a total relation with the id tie-break makes the order
unique); and the order is recomputed from the current balances each month:
in the concrete two-debt run `exFlipState` the order used for month 1 is
debt 1 before debt 2, while the order used for month 3, after the balances
have crossed, is debt 2 before debt 1. -/
theorem orderPolicy_spec :
    (∀ ds : List SimDebt, List.Perm (orderPolicy .snowball ds) ds ∧
      (orderPolicy .snowball ds).Pairwise snowballRel) ∧
    (∀ ds : List SimDebt, List.Perm (orderPolicy .avalanche ds) ds ∧
      (orderPolicy .avalanche ds).Pairwise avalancheRel) ∧
    monthOrderIds .snowball exFlipState = [1, 2] ∧
    monthOrderIds .snowball
      (stepMonth .snowball 0 (stepMonth .snowball 0 exFlipState)) = [2, 1] := by
  refine ⟨fun ds => ⟨sortByRel_perm _ ds, ?_⟩, fun ds => ⟨sortByRel_perm _ ds, ?_⟩, ?_, ?_⟩
  · exact sortByRel_pairwise _ snowballRel_total snowballRel_trans ds
  · exact sortByRel_pairwise _ avalancheRel_total avalancheRel_trans ds
  · decide
  · decide

/-- Half-up rounding identity: the engine's integer computation of monthly
interest equals the floor form of round-half-up on exact rationals. -/
theorem mi_floor (b r : Int) (hb : 0 ≤ b) (hr : 0 ≤ r) :
    monthlyInterest b r = Int.floor (((b * r : Int) : ℚ) / 100 / 12 + 1 / 2) := by
  have hn : (0 : Int) ≤ 2 * b * r + 1200 := by positivity
  have hcast : (((2 * b * r + 1200).toNat : Int)) = 2 * b * r + 1200 :=
    Int.toNat_of_nonneg hn
  set n : Nat := (2 * b * r + 1200).toNat with hdef
  have key : ((b * r : Int) : ℚ) / 100 / 12 + 1 / 2 = (n : ℚ) / 2400 := by
    have h2 : ((n : ℚ)) = ((2 * b * r + 1200 : Int) : ℚ) := by
      rw [← hcast]; push_cast; ring
    rw [h2]; push_cast; ring
  rw [key]
  have h3 : Int.floor ((n : ℚ) / 2400) = ((Nat.floor ((n : ℚ) / 2400) : Int)) :=
    (Int.natCast_floor_eq_floor (by positivity)).symm
  have h4 : (n : ℚ) / 2400 = (n : ℚ) / ((2400 : Nat) : ℚ) := by norm_num
  rw [h3, h4, Nat.floor_div_nat, Nat.floor_natCast]
  rfl

/-- C3: for every balance `b` and annual rate `r`, the monthly interest is
`b × r / 100 / 12` rounded half-up to the currency minor unit; the deployed
currency is zero-decimal (format.ts uses maximumFractionDigits 0, so the
minor-unit scale is 1), hence the rounding is to the nearest whole unit,
with halves rounded up. -/
theorem monthlyInterest_round_half_up (b r : Int) (hb : 0 ≤ b) (hr : 0 ≤ r) :
    monthlyInterest b r * ((minorUnitScale : Nat) : Int) =
      Int.floor (((b * r : Int) : ℚ) / 100 / 12 * ((minorUnitScale : Nat) : ℚ) + 1 / 2) := by
  have hs : ((minorUnitScale : Nat) : Int) = 1 := by
    norm_num [minorUnitScale, formatCurrencyMaxFractionDigits]
  have hsq : ((minorUnitScale : Nat) : ℚ) = 1 := by
    norm_num [minorUnitScale, formatCurrencyMaxFractionDigits]
  rw [hs, hsq, mul_one, mul_one]
  exact mi_floor b r hb hr

/-- Witness for C3 at balance 100 and rate 7 percent: the exact monthly
interest is 0.5833…, which rounds half-up to 1 whole unit. -/
theorem monthlyInterest_round_half_up_witness :
    (0 : Int) ≤ 100 ∧ (0 : Int) ≤ 7 ∧ monthlyInterest 100 7 = 1 ∧
    monthlyInterest 100 7 * ((minorUnitScale : Nat) : Int) =
      Int.floor (((100 * 7 : Int) : ℚ) / 100 / 12 * ((minorUnitScale : Nat) : ℚ) + 1 / 2) :=
  ⟨by norm_num, by norm_num, by decide,
    monthlyInterest_round_half_up 100 7 (by norm_num) (by norm_num)⟩

/-- C9: when the caller does not supply an extra payment, the client's
`analyzeDebts` requests the analysis with an extra payment of exactly 0:
the omitted argument defaults to 0, and the chosen value is always sent as
the `extra_payment` query parameter of `GET /debts/analysis/:userId`. -/
theorem analyzeDebts_default_zero (u : String) (e : Int) :
    analyzeDebts u = analyzeDebts u 0 ∧
    (analyzeDebts u).params = [("extra_payment", 0)] ∧
    (analyzeDebts u e).params = [("extra_payment", e)] ∧
    (analyzeDebts u e).path = "/debts/analysis/" ++ u :=
  ⟨rfl, rfl, rfl, rfl⟩

/-- C10: the debts screen's progress expression has no guard on its
divisor: a principal of 0 produces no finite percentage, and an
outstanding balance above the principal produces a negative percentage. -/
theorem progressPct_unguarded :
    (∀ o : ℚ, progressPct 0 o = none) ∧
    (∀ p o : ℚ, 0 < p → p < o →
      ∃ q : ℚ, progressPct p o = some q ∧ q < 0) := by
  constructor
  · intro o; simp [progressPct]
  · intro p o hp hpo
    refine ⟨(p - o) / p * 100, ?_, ?_⟩
    · rw [progressPct, if_neg (ne_of_gt hp)]
    · have hneg : p - o < 0 := by linarith
      have h1 : (p - o) / p < 0 := div_neg_of_neg_of_pos hneg hp
      nlinarith

/-- Witness for C10: principal 0 yields no percentage, and the record with
principal 2 and outstanding 3 yields a negative percentage. -/
theorem progressPct_unguarded_witness :
    progressPct 0 5 = none ∧ ∃ q : ℚ, progressPct 2 3 = some q ∧ q < 0 :=
  ⟨progressPct_unguarded.1 5,
    progressPct_unguarded.2 2 3 (by norm_num) (by norm_num)⟩

/-- C7: any input with a negative extra payment, a negative outstanding
balance, a non-positive minimum payment on an unpaid debt, or a negative
annual interest rate makes `planPayoff` return the `InvalidInput` typed
failure, before any simulation month is executed and with no partial
result. -/
theorem planPayoff_rejects_invalid (debts : List Debt) (extra : Int)
    (h : extra < 0 ∨ ∃ d ∈ debts,
      d.outstanding < 0 ∨ (0 < d.outstanding ∧ d.minimum_payment ≤ 0) ∨
        d.annual_interest_rate < 0) :
    planPayoff debts extra = .error .invalidInput := by
  rw [planPayoff, if_neg]
  intro hv
  obtain ⟨he, hall⟩ := hv
  rcases h with h | ⟨d, hd, hcase⟩
  · omega
  · obtain ⟨h1, h2, h3⟩ := hall d hd
    rcases hcase with hc | ⟨hc1, hc2⟩ | hc
    · omega
    · have := h2 hc1; omega
    · omega

/-- Witness for C7: a debt with negative outstanding balance is rejected. -/
theorem planPayoff_rejects_invalid_witness :
    planPayoff [⟨1, 5, -3, 0, 10⟩] 0 = .error .invalidInput :=
  planPayoff_rejects_invalid [⟨1, 5, -3, 0, 10⟩] 0
    (Or.inr ⟨⟨1, 5, -3, 0, 10⟩, by simp, Or.inl (by norm_num)⟩)

/-- C6: the Comparison Reporter sums outstanding balances into
`total_debt` and minimum payments into `total_emi`, reports the
balance-weighted average interest rate (0 when `total_debt` is 0, and
satisfying `avg × Σoutstanding = Σ(outstanding × rate)` otherwise), and
sets `interest_saved_with_avalanche` to the snowball interest minus the
avalanche interest; the empty debt list yields `total_debt = 0`,
`total_emi = 0`, `average_interest_rate = 0` and both plans report
`total_months = some 0` with zero interest, the simulator loop never
running. -/
theorem analyze_reporter (debts : List Debt) (extra : Int) :
    (analyze debts extra).total_debt = (debts.map fun d => d.outstanding).sum ∧
    (analyze debts extra).total_emi = (debts.map fun d => d.minimum_payment).sum ∧
    (analyze debts extra).interest_saved_with_avalanche =
      (analyze debts extra).snowball_analysis.total_interest_paid -
        (analyze debts extra).avalanche_analysis.total_interest_paid ∧
    ((analyze debts extra).total_debt = 0 → (analyze debts extra).average_interest_rate = 0) ∧
    ((analyze debts extra).total_debt ≠ 0 →
      (analyze debts extra).average_interest_rate * (((analyze debts extra).total_debt : Int) : ℚ) =
        (((debts.map fun d => d.outstanding * d.annual_interest_rate).sum : Int) : ℚ)) ∧
    ((analyze ([] : List Debt) extra).total_debt = 0 ∧
      (analyze ([] : List Debt) extra).total_emi = 0 ∧
      (analyze ([] : List Debt) extra).average_interest_rate = 0 ∧
      (analyze ([] : List Debt) extra).snowball_analysis.total_months = some 0 ∧
      (analyze ([] : List Debt) extra).avalanche_analysis.total_months = some 0 ∧
      (analyze ([] : List Debt) extra).snowball_analysis.total_interest_paid = 0 ∧
      (analyze ([] : List Debt) extra).avalanche_analysis.total_interest_paid = 0) := by
  refine ⟨rfl, rfl, rfl, ?_, ?_, rfl, rfl, ?_, rfl, rfl, rfl, rfl⟩
  · intro h
    have h2 : (debts.map fun d => d.outstanding).sum = 0 := h
    simp [analyze, h2]
  · intro h
    have h2 : (debts.map fun d => d.outstanding).sum ≠ 0 := h
    simp only [analyze]
    rw [if_neg h2]
    exact div_mul_cancel₀ _ (Int.cast_ne_zero.2 h2)
  · simp [analyze]

/-- Witness for C6 on a one-debt portfolio with nonzero total debt. -/
theorem analyze_reporter_witness :
    (analyze [exTwelve] 0).total_debt ≠ 0 ∧
    (analyze [exTwelve] 0).average_interest_rate *
        (((analyze [exTwelve] 0).total_debt : Int) : ℚ) =
      ((([exTwelve].map fun d => d.outstanding * d.annual_interest_rate).sum : Int) : ℚ) :=
  ⟨by decide, (analyze_reporter [exTwelve] 0).2.2.2.2.1 (by decide)⟩

/-- The month counter grows by at most one per unit of fuel. -/
theorem simulate_month_le (s : Strategy) (e : Int) :
    ∀ (fuel : Nat) (st : SimState), (simulate s e fuel st).month ≤ st.month + fuel := by
  intro fuel
  induction fuel with
  | zero => intro st; simp [simulate]
  | succ n ih =>
    intro st
    rw [simulate]
    split
    · omega
    · have h1 := ih (stepMonth s e st)
      have h2 : (stepMonth s e st).month = st.month + 1 := rfl
      omega

/-- Specialization of the month bound to runs that start at month 0. -/
theorem simulate_month_le0 (s : Strategy) (e : Int) (fuel : Nat) (st : SimState)
    (h0 : st.month = 0) : (simulate s e fuel st).month ≤ fuel := by
  have := simulate_month_le s e fuel st
  omega

set_option maxRecDepth 10000 in
/-- C4: every strategy run terminates: whenever a run reports a month
count it is at most the safety ceiling of 1200 months, and on the spec's
divergent input (outstanding 10000 at 36 percent per year with minimum
payment 1, forever below the accruing interest) both strategies report
the explicit NonConvergent marker instead of a month count. -/
theorem runStrategy_bounded :
    (∀ (s : Strategy) (extra : Int) (debts : List Debt) (m : Nat),
      (runStrategy s extra debts).total_months = some m → m ≤ safetyCeiling) ∧
    (runStrategy .snowball 0 [exDiverge]).total_months = none ∧
    (runStrategy .avalanche 0 [exDiverge]).total_months = none := by
  refine ⟨?_, by decide, by decide⟩
  intro s extra debts m h
  simp only [runStrategy] at h
  split at h
  · injection h with h2
    rw [← h2]
    exact simulate_month_le0 s extra safetyCeiling _ rfl
  · exact absurd h (by simp)

/-- Witness for C4: the 0-percent debt of 1200 with minimum payment 100
converges in 12 months, within the ceiling. -/
theorem runStrategy_bounded_witness :
    (runStrategy .snowball 0 [exTwelve]).total_months = some 12 ∧ 12 ≤ safetyCeiling :=
  ⟨by decide, runStrategy_bounded.1 .snowball 0 [exTwelve] 12 (by decide)⟩

/-- Surplus consumed before position 0 is zero. -/
theorem prefixBal_zero (ds : List SimDebt) : prefixBal ds 0 = 0 := by
  simp [prefixBal]

/-- Prefix balances unfold along the list. -/
theorem prefixBal_cons (d : SimDebt) (rest : List SimDebt) (i : Nat) :
    prefixBal (d :: rest) (i + 1) = d.balance + prefixBal rest i := by
  simp [prefixBal]

/-- Prefix balances of a nonnegative list are nonnegative. -/
theorem prefixBal_nonneg (ds : List SimDebt) (i : Nat)
    (hb : ∀ d ∈ ds, 0 ≤ d.balance) : 0 ≤ prefixBal ds i := by
  apply List.sum_nonneg
  intro x hx
  obtain ⟨d, hd, rfl⟩ := List.mem_map.1 hx
  exact hb d (List.mem_of_mem_take hd)

/-- Closed form of the cascading allocation: the debt at position `i`
pays `min (max 0 (surplus - prefixBal ds i)) balance`, so every earlier
debt absorbs the surplus in full before any reaches position `i`. -/
theorem cascade_get (surplus : Int) (ds : List SimDebt) (hs : 0 ≤ surplus)
    (hb : ∀ d ∈ ds, 0 ≤ d.balance) (i : Nat) (d : SimDebt) (hd : ds[i]? = some d) :
    (cascade surplus ds)[i]? =
      some { d with balance := d.balance - min (max 0 (surplus - prefixBal ds i)) d.balance } := by
  induction ds generalizing surplus i with
  | nil => simp at hd
  | cons d0 rest ih =>
    have hb0 : 0 ≤ d0.balance := hb d0 (by simp)
    cases i with
    | zero =>
      simp only [List.getElem?_cons_zero, Option.some.injEq] at hd
      subst hd
      simp only [cascade, List.getElem?_cons_zero, Option.some.injEq, prefixBal_zero]
      have : min (max 0 (surplus - 0)) d0.balance = min surplus d0.balance := by omega
      rw [this]
    | succ i =>
      simp only [List.getElem?_cons_succ] at hd
      have hs2 : (0 : Int) ≤ surplus - min surplus d0.balance := by omega
      have hb2 : ∀ x ∈ rest, 0 ≤ x.balance := fun x hx => hb x (by simp [hx])
      have hres := ih (surplus - min surplus d0.balance) hs2 hb2 i hd
      simp only [cascade, List.getElem?_cons_succ]
      rw [hres]
      have hpre : 0 ≤ prefixBal rest i := prefixBal_nonneg rest i hb2
      have heq : max 0 (surplus - min surplus d0.balance - prefixBal rest i) =
          max 0 (surplus - prefixBal (d0 :: rest) (i + 1)) := by
        rw [prefixBal_cons]; omega
      rw [heq]

/-- C1: one simulated month processes the unpaid debts in the spec's
order: interest is accrued onto every balance first; then each debt's own
minimum payment is applied to its own balance, floored at 0, with the
excess returned as that debt's unallocated surplus rather than paid to
any other debt; finally the total surplus (extra payment plus all
overpayment surplus) cascades down the ordering policy's current priority
order, paying each debt in full before the next: the debt at position `i`
of the order receives exactly `min (max 0 (surplus - prefixBal i))
balance`. -/
theorem stepMonth_follows_spec :
    (∀ (s : Strategy) (extra : Int) (st : SimState),
      stepMonth s extra st =
        { month := st.month + 1
          debts := (cascade (surplusTotal extra (accruePhase st.debts))
            (orderPolicy s (minPhase (accruePhase st.debts)))).filter fun d => 0 < d.balance
          paid := st.paid ++ ((cascade (surplusTotal extra (accruePhase st.debts))
            (orderPolicy s (minPhase (accruePhase st.debts)))).filter fun d =>
              d.balance ≤ 0).map fun d => (d.id, st.month + 1)
          cumInterest := st.cumInterest + interestTotal st.debts }) ∧
    (∀ d : SimDebt,
      (accrueDebt d).balance = d.balance + monthlyInterest d.balance d.annual_interest_rate ∧
      (payMinimum d).balance = max 0 (d.balance - d.minimum_payment) ∧
      overpaySurplus d = max 0 (d.minimum_payment - d.balance) ∧
      (accrueDebt d).id = d.id ∧ (payMinimum d).id = d.id ∧
      (accrueDebt d).minimum_payment = d.minimum_payment) ∧
    (∀ (extra : Int) (ds : List SimDebt),
      surplusTotal extra ds = extra + (ds.map overpaySurplus).sum) ∧
    (∀ (surplus : Int) (ds : List SimDebt), 0 ≤ surplus → (∀ d ∈ ds, 0 ≤ d.balance) →
      ∀ (i : Nat) (d : SimDebt), ds[i]? = some d →
        (cascade surplus ds)[i]? =
          some { d with
            balance := d.balance - min (max 0 (surplus - prefixBal ds i)) d.balance }) :=
  ⟨fun _ _ _ => rfl, fun _ => ⟨rfl, rfl, rfl, rfl, rfl, rfl⟩, fun _ _ => rfl, cascade_get⟩

/-- Witness for C1: with surplus 10 over balances 7 then 8, the first
debt is paid in full and the second receives the remaining 3. -/
theorem stepMonth_follows_spec_witness :
    (0 : Int) ≤ 10 ∧
    (cascade 10 [⟨1, 0, 5, 7⟩, ⟨2, 0, 5, 8⟩])[1]? = some ⟨2, 0, 5, 5⟩ :=
  ⟨by decide, by
    have h := stepMonth_follows_spec.2.2.2 10 [⟨1, 0, 5, 7⟩, ⟨2, 0, 5, 8⟩]
      (by decide) (by decide) 1 ⟨2, 0, 5, 8⟩ (by decide)
    simpa using h⟩

/-- The month's total surplus is nonnegative when the extra payment is. -/
theorem surplusTotal_nonneg (extra : Int) (he : 0 ≤ extra) (ds : List SimDebt) :
    0 ≤ surplusTotal extra ds := by
  have hsum : 0 ≤ (ds.map overpaySurplus).sum := by
    apply List.sum_nonneg
    intro x hx
    obtain ⟨d, hd, rfl⟩ := List.mem_map.1 hx
    exact le_max_left 0 _
  have : surplusTotal extra ds = extra + (ds.map overpaySurplus).sum := rfl
  omega

/-- Minimum-payment application floors every balance at 0. -/
theorem minPhase_nonneg (ds : List SimDebt) (d : SimDebt) (hd : d ∈ minPhase ds) :
    0 ≤ d.balance := by
  obtain ⟨x, hx, rfl⟩ := List.mem_map.1 hd
  exact le_max_left 0 _

/-- Cascading a nonnegative surplus keeps every balance nonnegative. -/
theorem cascade_mem_nonneg (surplus : Int) (ds : List SimDebt) (hs : 0 ≤ surplus)
    (hb : ∀ d ∈ ds, 0 ≤ d.balance) : ∀ d ∈ cascade surplus ds, 0 ≤ d.balance := by
  induction ds generalizing surplus with
  | nil => simp [cascade]
  | cons d0 rest ih =>
    intro d hd
    have hb0 : 0 ≤ d0.balance := hb d0 (by simp)
    rcases List.mem_cons.1 hd with h | h
    · rw [h]; simp only; omega
    · exact ih (surplus - min surplus d0.balance) (by omega)
        (fun x hx => hb x (by simp [hx])) d h

/-- The cascade changes only balances: id, rate and minimum payment of
every output debt come from some input debt. -/
theorem cascade_mem_attrs (surplus : Int) (ds : List SimDebt) :
    ∀ d ∈ cascade surplus ds, ∃ d0 ∈ ds,
      d.id = d0.id ∧ d.annual_interest_rate = d0.annual_interest_rate ∧
        d.minimum_payment = d0.minimum_payment := by
  induction ds generalizing surplus with
  | nil => simp [cascade]
  | cons d0 rest ih =>
    intro d hd
    rcases List.mem_cons.1 hd with h | h
    · exact ⟨d0, by simp, by rw [h], by rw [h], by rw [h]⟩
    · obtain ⟨x, hx, hrest⟩ := ih (surplus - min surplus d0.balance) d h
      exact ⟨x, by simp [hx], hrest⟩

/-- A payoff record, once written, survives every further simulated month. -/
theorem paid_persists_simulate (s : Strategy) (e : Int) :
    ∀ (fuel : Nat) (st : SimState) (p : Nat × Nat),
      p ∈ st.paid → p ∈ (simulate s e fuel st).paid := by
  intro fuel
  induction fuel with
  | zero => intro st p hp; simpa [simulate] using hp
  | succ n ih =>
    intro st p hp
    rw [simulate]
    split
    · exact hp
    · exact ih (stepMonth s e st) p (List.mem_append_left _ hp)

/-- C5: in every reachable state balances stay nonnegative — the working
list after a month holds only positive balances, and every post-allocation
balance is at least 0 (payments are clamped); a debt is marked Paid at
this month exactly when the month's payments drive its balance to 0 or
below, and otherwise stays active; payoff records are never removed or
rewritten by later months; and no month introduces debts beyond those of
the previous state, so a paid debt stays excluded. -/
theorem simulation_invariants (s : Strategy) (extra : Int) (he : 0 ≤ extra) (st : SimState) :
    (∀ d ∈ (stepMonth s extra st).debts, 0 < d.balance) ∧
    (∀ d ∈ cascade (surplusTotal extra (accruePhase st.debts))
        (orderPolicy s (minPhase (accruePhase st.debts))),
      0 ≤ d.balance ∧
        ((0 < d.balance ∧ d ∈ (stepMonth s extra st).debts) ∨
          (d.balance ≤ 0 ∧ (d.id, st.month + 1) ∈ (stepMonth s extra st).paid))) ∧
    (∀ p ∈ st.paid, p ∈ (stepMonth s extra st).paid) ∧
    (∀ (fuel : Nat), ∀ p ∈ st.paid, p ∈ (simulate s extra fuel st).paid) ∧
    (∀ d2 ∈ (stepMonth s extra st).debts, ∃ d1 ∈ st.debts,
      d2.id = d1.id ∧ d2.annual_interest_rate = d1.annual_interest_rate ∧
        d2.minimum_payment = d1.minimum_payment) := by
  have hordmem : ∀ d ∈ orderPolicy s (minPhase (accruePhase st.debts)),
      0 ≤ d.balance := fun x hx =>
    minPhase_nonneg (accruePhase st.debts) x
      ((sortByRel_perm (strategyRel s) (minPhase (accruePhase st.debts))).mem_iff.1 hx)
  have hsur := surplusTotal_nonneg extra he (accruePhase st.debts)
  refine ⟨?_, ?_, ?_, ?_, ?_⟩
  · intro d hd
    simp only [stepMonth] at hd
    have h2 := List.mem_filter.1 hd
    simpa using h2.2
  · intro d hd
    have hnn := cascade_mem_nonneg _ _ hsur hordmem d hd
    refine ⟨hnn, ?_⟩
    by_cases hpos : 0 < d.balance
    · exact Or.inl ⟨hpos, by
        show d ∈ List.filter _ _
        exact List.mem_filter.2 ⟨hd, by simpa⟩⟩
    · refine Or.inr ⟨by omega, ?_⟩
      show (d.id, st.month + 1) ∈ st.paid ++ _
      refine List.mem_append_right _
        (List.mem_map.2 ⟨d, List.mem_filter.2 ⟨hd, by simpa using hpos⟩, rfl⟩)
  · intro p hp
    exact List.mem_append_left _ hp
  · intro fuel p hp
    exact paid_persists_simulate s extra fuel st p hp
  · intro d2 hd2
    simp only [stepMonth] at hd2
    have h2 := (List.mem_filter.1 hd2).1
    obtain ⟨d0, hd0, hid, hrate, hmin⟩ := cascade_mem_attrs _ _ d2 h2
    have hd0m := (sortByRel_perm (strategyRel s)
      (minPhase (accruePhase st.debts))).mem_iff.1 hd0
    obtain ⟨x, hx, rfl⟩ := List.mem_map.1 hd0m
    obtain ⟨y, hy, rfl⟩ := List.mem_map.1 hx
    exact ⟨y, hy, by simpa [payMinimum, accrueDebt] using hid,
      by simpa [payMinimum, accrueDebt] using hrate,
      by simpa [payMinimum, accrueDebt] using hmin⟩

/-- Witness for C5: an existing payoff record survives a step. -/
theorem simulation_invariants_witness :
    (0 : Int) ≤ 0 ∧
    ((9, 0) : Nat × Nat) ∈ (stepMonth .snowball 0 ⟨0, [⟨1, 0, 5, 100⟩], [(9, 0)], 0⟩).paid :=
  ⟨le_refl 0, (simulation_invariants .snowball 0 (le_refl 0) _).2.2.1 (9, 0) (by decide)⟩

/-- Monthly interest is monotone in the balance for nonnegative rates. -/
theorem monthlyInterest_mono (r b1 b2 : Int) (hr : 0 ≤ r) (h : b2 ≤ b1) :
    monthlyInterest b2 r ≤ monthlyInterest b1 r := by
  unfold monthlyInterest
  have hmul : 2 * b2 * r ≤ 2 * b1 * r := by
    apply mul_le_mul_of_nonneg_right _ hr
    omega
  exact Int.ofNat_le.2 (Nat.div_le_div_right (Int.toNat_le_toNat (by omega)))

/-- One month of a single-debt run in closed form: the debt accrues
interest, pays its minimum, and absorbs the whole surplus, leaving
`nbal`; it is removed and recorded as Paid exactly when `nbal` is 0. -/
theorem stepMonth_single (s : Strategy) (e : Int) (he : 0 ≤ e) (k : Nat)
    (P : List (Nat × Nat)) (C : Int) (x : SimDebt) :
    stepMonth s e ⟨k, [x], P, C⟩ =
      ⟨k + 1,
        if 0 < nbal x e then
          [⟨x.id, x.annual_interest_rate, x.minimum_payment, nbal x e⟩] else [],
        if 0 < nbal x e then P else P ++ [(x.id, k + 1)],
        C + monthlyInterest x.balance x.annual_interest_rate⟩ := by
  have hB : max 0 (x.balance + monthlyInterest x.balance x.annual_interest_rate
        - x.minimum_payment)
      - min (e + max 0 (x.minimum_payment
          - (x.balance + monthlyInterest x.balance x.annual_interest_rate)))
        (max 0 (x.balance + monthlyInterest x.balance x.annual_interest_rate
          - x.minimum_payment)) = nbal x e := by
    unfold nbal
    omega
  simp only [stepMonth, accruePhase, minPhase, orderPolicy, sortByRel, insertSorted,
    cascade, surplusTotal, overpaySurplus, interestTotal, payMinimum, accrueDebt,
    List.map_cons, List.map_nil, List.sum_cons, List.sum_nil, add_zero,
    List.filter_singleton]
  simp only [hB]
  by_cases hpos : 0 < nbal x e
  · have hneg : ¬nbal x e ≤ 0 := by omega
    simp [hpos, hneg]
  · have hle : nbal x e ≤ 0 := by omega
    simp [hpos, hle]

/-- Once every debt is Paid the simulation is inert. -/
theorem simulate_empty (s : Strategy) (e : Int) (fuel : Nat) (st : SimState)
    (h : st.debts = []) : simulate s e fuel st = st := by
  cases fuel with
  | zero => rfl
  | succ n => rw [simulate]; simp [h]

/-- A nonpositive balance needs zero further months. -/
theorem oneRun_nonpos (e r m : Int) (fuel : Nat) (b : Int) (hb : b ≤ 0) :
    oneRun e r m fuel b = some 0 := by
  cases fuel <;> simp [oneRun, hb]

/-- The simulator on a single positive debt agrees with the direct
recursion `oneRun`: it converges with month count `k + n` exactly when
`oneRun` returns `some n`. -/
theorem simulate_single (s : Strategy) (e : Int) (he : 0 ≤ e) (i : Nat) (r mp : Int) :
    ∀ (fuel : Nat) (k : Nat) (b : Int) (P : List (Nat × Nat)) (C : Int), 0 < b →
      ((∃ n, oneRun e r mp fuel b = some n ∧
        (simulate s e fuel ⟨k, [⟨i, r, mp, b⟩], P, C⟩).debts = [] ∧
        (simulate s e fuel ⟨k, [⟨i, r, mp, b⟩], P, C⟩).month = k + n) ∨
       (oneRun e r mp fuel b = none ∧
        (simulate s e fuel ⟨k, [⟨i, r, mp, b⟩], P, C⟩).debts ≠ [])) := by
  intro fuel
  induction fuel with
  | zero =>
    intro k b P C hb
    right
    constructor
    · simp [oneRun]; omega
    · simp [simulate]
  | succ f ih =>
    intro k b P C hb
    have hne : ([⟨i, r, mp, b⟩] : List SimDebt).isEmpty = false := rfl
    rw [simulate]
    simp only [hne, Bool.false_eq_true, if_false]
    rw [stepMonth_single s e he k P C ⟨i, r, mp, b⟩]
    have hnb : nbal ⟨i, r, mp, b⟩ e = max 0 (b + monthlyInterest b r - mp - e) := rfl
    by_cases hpos : 0 < nbal ⟨i, r, mp, b⟩ e
    · simp only [if_pos hpos]
      rcases ih (k + 1) (nbal ⟨i, r, mp, b⟩ e) P
        (C + monthlyInterest b r) hpos with ⟨n, h1, h2, h3⟩ | ⟨h1, h2⟩
      · left
        refine ⟨n + 1, ?_, h2, by omega⟩
        rw [oneRun, if_neg (by omega)]
        rw [← hnb, h1]
        rfl
      · right
        refine ⟨?_, h2⟩
        rw [oneRun, if_neg (by omega)]
        rw [← hnb, h1]
        rfl
    · simp only [if_neg hpos]
      rw [simulate_empty s e f _ rfl]
      left
      refine ⟨1, ?_, rfl, rfl⟩
      rw [oneRun, if_neg (by omega)]
      rw [← hnb, oneRun_nonpos e r mp f _ (by omega)]
      rfl

/-- The reported month count of a single-debt run is `oneRun` at the
safety ceiling. -/
theorem runStrategy_single_months (s : Strategy) (e : Int) (he : 0 ≤ e)
    (d : Debt) (hd : 0 < d.outstanding) :
    (runStrategy s e [d]).total_months =
      oneRun e d.annual_interest_rate d.minimum_payment safetyCeiling d.outstanding := by
  have hfil : List.filter (fun x => decide (0 < x.outstanding)) [d] = [d] := by
    simp [hd]
  have hfil2 : List.filter (fun x => decide (x.outstanding ≤ 0)) [d] = [] := by
    simp; omega
  simp only [runStrategy, hfil, hfil2, List.map_cons, List.map_nil, toSimDebt]
  rcases simulate_single s e he d.id d.annual_interest_rate d.minimum_payment
      safetyCeiling 0 d.outstanding [] 0 hd with ⟨n, h1, h2, h3⟩ | ⟨h1, h2⟩
  · rw [h1]
    simp [List.isEmpty_iff, h2, h3]
  · rw [h1]
    simp [List.isEmpty_iff, h2]

/-- A single debt with no positive balance is Paid from the start. -/
theorem runStrategy_single_prepaid (s : Strategy) (e : Int) (d : Debt)
    (hd : ¬0 < d.outstanding) :
    (runStrategy s e [d]).total_months = some 0 := by
  have hfil : List.filter (fun x => decide (0 < x.outstanding)) [d] = [] := by
    simp [hd]
  simp only [runStrategy, hfil, List.map_nil]
  rw [simulate_empty s e safetyCeiling _ rfl]
  rfl

/-- For one debt, a larger extra payment can only speed up `oneRun`. -/
theorem oneRun_mono (r mp e1 e2 : Int) (hr : 0 ≤ r) (he : e1 ≤ e2) :
    ∀ (fuel : Nat) (b1 b2 : Int), b2 ≤ b1 →
      ∀ n1, oneRun e1 r mp fuel b1 = some n1 →
        ∃ n2, oneRun e2 r mp fuel b2 = some n2 ∧ n2 ≤ n1 := by
  intro fuel
  induction fuel with
  | zero =>
    intro b1 b2 hb n1 h1
    rw [oneRun] at h1
    split at h1
    · injection h1 with h1
      exact ⟨0, oneRun_nonpos e2 r mp 0 b2 (by omega), by omega⟩
    · exact absurd h1 (by simp)
  | succ f ih =>
    intro b1 b2 hb n1 h1
    by_cases hb2 : b2 ≤ 0
    · exact ⟨0, oneRun_nonpos e2 r mp (f + 1) b2 hb2, Nat.zero_le n1⟩
    · have hb1 : ¬b1 ≤ 0 := by omega
      rw [oneRun, if_neg hb1] at h1
      rcases hcase : oneRun e1 r mp f (max 0 (b1 + monthlyInterest b1 r - mp - e1))
        with _ | n1p
      · rw [hcase] at h1
        exact absurd h1 (by simp)
      · rw [hcase] at h1
        have hn1 : n1 = n1p + 1 := by
          simpa using h1.symm
        have hmi := monthlyInterest_mono r b1 b2 hr hb
        have hmono : max 0 (b2 + monthlyInterest b2 r - mp - e2) ≤
            max 0 (b1 + monthlyInterest b1 r - mp - e1) := by omega
        obtain ⟨n2p, h2, hle⟩ := ih _ _ hmono n1p hcase
        refine ⟨n2p + 1, ?_, by omega⟩
        rw [oneRun, if_neg hb2, h2]
        rfl

/-- C8 counterexample: on the valid two-debt portfolio `exPair` the
snowball run with extra payment 22 finishes in 3 months but with the
larger extra payment 30 it needs 4 months — paying debt 2 off a month
earlier removes its minimum payment from the later monthly budgets, so
increasing the extra payment increases `total_months`. -/
theorem extra_payment_not_monotone :
    validInput exPair 22 ∧ validInput exPair 30 ∧ (22 : Int) ≤ 30 ∧
    planPayoff exPair 22 = .ok (analyze exPair 22) ∧
    planPayoff exPair 30 = .ok (analyze exPair 30) ∧
    (analyze exPair 22).snowball_analysis.total_months = some 3 ∧
    (analyze exPair 30).snowball_analysis.total_months = some 4 ∧
    ¬((4 : Nat) ≤ 3) := by
  refine ⟨by decide, by decide, by decide, ?_, ?_, by decide, by decide, by decide⟩
  · rw [planPayoff, if_pos (by decide)]
  · rw [planPayoff, if_pos (by decide)]

/-- C8 amended: for a single-debt portfolio, increasing the extra payment
never increases the reported month count, under either strategy. -/
theorem extra_payment_monotone_single (s : Strategy) (d : Debt) (e1 e2 : Int)
    (he1 : 0 ≤ e1) (he : e1 ≤ e2) (hr : 0 ≤ d.annual_interest_rate) (m1 : Nat)
    (h1 : (runStrategy s e1 [d]).total_months = some m1) :
    ∃ m2, (runStrategy s e2 [d]).total_months = some m2 ∧ m2 ≤ m1 := by
  by_cases hd : 0 < d.outstanding
  · rw [runStrategy_single_months s e1 he1 d hd] at h1
    obtain ⟨m2, h2, hle⟩ := oneRun_mono d.annual_interest_rate d.minimum_payment e1 e2
      hr he safetyCeiling d.outstanding d.outstanding (le_refl _) m1 h1
    refine ⟨m2, ?_, hle⟩
    rw [runStrategy_single_months s e2 (by omega) d hd]
    exact h2
  · rw [runStrategy_single_prepaid s e1 d hd] at h1
    injection h1 with h1
    exact ⟨0, runStrategy_single_prepaid s e2 d hd, by omega⟩

/-- Witness for the amended C8: raising the extra payment from 0 to 10 on
the 12-month debt keeps the payoff within 12 months. -/
theorem extra_payment_monotone_single_witness :
    (runStrategy .snowball 0 [exTwelve]).total_months = some 12 ∧
    ∃ m2, (runStrategy .snowball 10 [exTwelve]).total_months = some m2 ∧ m2 ≤ 12 :=
  ⟨by decide, extra_payment_monotone_single .snowball exTwelve 0 10
    (by decide) (by decide) (by decide) 12 (by decide)⟩
